import Mathlib

/-!
Shallow embedding of the per-connection message handling in
`src/server/src/server.c` (the body of the accept loop inside `main`):
the byte-at-a-time read loop with its `MAX_MSG_LEN` bound and overflow
flag, and the response dispatch that follows it.

The connection's input is modelled as a list of read events, one per
`recv(cfd, &ch, 1, 0)` call: a delivered byte, an orderly end of stream
(`recv` returns 0), an EINTR interruption (retried), or any other error
(the loop breaks).  The loop state mirrors the C locals `buf`, `total`
and `too_long`; every store `buf[total++] = ch` is additionally recorded
in a write trace so that in-bounds claims about the fixed 21-byte array
can be stated.
-/

/-- MAX_MSG_LEN from server.c: the bound on stored content bytes. -/
def MAX_MSG_LEN : Nat := 20

/-- Terminator test from the read loop: `ch == '\n' || ch == '\r'`
(byte values 10 and 13). -/
def isTerm (c : Nat) : Bool := c == 10 || c == 13

/-- Byte sequence of the C string literal "ERR too long\n" sent on
overflow. -/
def errMsg : List Nat := ("ERR too long\n".data.map Char.toNat)

/-- One result of a `recv(cfd, &ch, 1, 0)` call in the read loop:
a delivered byte (`recv` returned 1), orderly end of stream (`recv`
returned 0), an interruption by a signal (`recv` returned -1 with
errno = EINTR), or any other read error (`recv` returned -1). -/
inductive ReadEv : Type
  | byte (c : Nat)
  | eof
  | eintr
  | err

/-- Recognizer for the EINTR event. -/
def ReadEv.isEintr : ReadEv → Bool
  | ReadEv.eintr => true
  | _ => false

/-- State of the read loop, mirroring the C locals: `buf` holds the
stored content bytes (the C counter `total` is its length), `too_long`
is the overflow flag, and `writes` records every store
`buf[total++] = ch` as an (index, byte) pair, in program order. -/
structure ConnState where
  buf : List Nat
  too_long : Bool
  writes : List (Nat × Nat)

/-- Initial per-connection state: `total = 0`, `too_long = 0`, no
stores performed yet. -/
def initState : ConnState := ⟨[], false, []⟩

/-- The non-terminator byte case of the loop body: if
`total < MAX_MSG_LEN`, execute `buf[total++] = ch` (recorded in the
write trace); otherwise set `too_long = 1` and discard the byte. -/
def pushByte (st : ConnState) (c : Nat) : ConnState :=
  if st.buf.length < MAX_MSG_LEN then
    { st with buf := st.buf ++ [c], writes := st.writes ++ [(st.buf.length, c)] }
  else
    { st with too_long := true }

/-- Folding a whole run of non-terminator bytes through `pushByte`. -/
def pushBytes (st : ConnState) (C : List Nat) : ConnState := C.foldl pushByte st

/-- The read loop of server.c, one event per `recv` call.  Returns the
final state together with the events left unconsumed when the loop
exits.  EOF (`n == 0`), a non-EINTR error, and a terminator byte all
break out of the loop; EINTR retries with the state unchanged; every
other byte goes through `pushByte`.  An exhausted event list models a
`recv` that never returns, so the current state is simply reported. -/
def readLoop : List ReadEv → ConnState → ConnState × List ReadEv
  | [], st => (st, [])
  | ReadEv.eof :: rest, st => (st, rest)
  | ReadEv.err :: rest, st => (st, rest)
  | ReadEv.eintr :: rest, st => readLoop rest st
  | ReadEv.byte c :: rest, st =>
    if isTerm c then (st, rest) else readLoop rest (pushByte st c)

/-- The response dispatch after the loop: the overflow sentinel if
`too_long` is set, else the accumulated bytes followed by a single
newline if `total > 0`, else nothing at all. -/
def response (st : ConnState) : List Nat :=
  if st.too_long then errMsg
  else if 0 < st.buf.length then st.buf ++ [10]
  else []

/-- Everything the handler writes back to the connection for a given
event stream (sends assumed to succeed). -/
def handle (evs : List ReadEv) : List Nat :=
  response (readLoop evs initState).1

/-- All writes into the 21-byte `buf` array for a given event stream:
the content stores from the loop followed by the final
`buf[total] = '\0'`. -/
def bufWrites (evs : List ReadEv) : List (Nat × Nat) :=
  let st := (readLoop evs initState).1
  st.writes ++ [(st.buf.length, 0)]

/-- Boolean form of "C contains no terminator byte". -/
def noTermBytes (C : List Nat) : Bool := C.all fun c => !isTerm c

/-- Boolean form of "every element of C is a byte value". -/
def allBytes (C : List Nat) : Bool := C.all fun c => decide (c < 256)

lemma noTermBytes_iff (C : List Nat) :
    noTermBytes C = true ↔ ∀ c ∈ C, isTerm c = false := by
  simp [noTermBytes, List.all_eq_true]

lemma pushBytes_cons (st : ConnState) (c : Nat) (C : List Nat) :
    pushBytes st (c :: C) = pushBytes (pushByte st c) C := rfl

lemma readLoop_append_bytes (C : List Nat) (rest : List ReadEv) (st : ConnState)
    (h : ∀ c ∈ C, isTerm c = false) :
    readLoop (C.map ReadEv.byte ++ rest) st = readLoop rest (pushBytes st C) := by
  induction C generalizing st with
  | nil => rfl
  | cons c C ih =>
    have hc : isTerm c = false := h c (List.mem_cons_self c C)
    have hrest : ∀ x ∈ C, isTerm x = false := fun x hx => h x (List.mem_cons_of_mem _ hx)
    simp only [List.map_cons, List.cons_append, readLoop, hc, Bool.false_eq_true,
      if_false, pushBytes_cons]
    exact ih (pushByte st c) hrest

lemma pushByte_too_long_of (st : ConnState) (c : Nat) (h : st.too_long = true) :
    (pushByte st c).too_long = true := by
  unfold pushByte; split <;> simp [h]

lemma pushBytes_too_long_of (C : List Nat) (st : ConnState) (h : st.too_long = true) :
    (pushBytes st C).too_long = true := by
  induction C generalizing st with
  | nil => exact h
  | cons c C ih => exact ih (pushByte st c) (pushByte_too_long_of st c h)

lemma pushByte_of_lt (st : ConnState) (c : Nat) (h : st.buf.length < MAX_MSG_LEN) :
    pushByte st c
      = { st with buf := st.buf ++ [c], writes := st.writes ++ [(st.buf.length, c)] } := by
  simp [pushByte, h]

lemma pushByte_of_full (st : ConnState) (c : Nat) (h : ¬ st.buf.length < MAX_MSG_LEN) :
    pushByte st c = { st with too_long := true } := by
  simp [pushByte, h]

lemma pushBytes_of_le (C : List Nat) (st : ConnState) (htl : st.too_long = false)
    (h : st.buf.length + C.length ≤ MAX_MSG_LEN) :
    (pushBytes st C).buf = st.buf ++ C ∧ (pushBytes st C).too_long = false := by
  induction C generalizing st with
  | nil => exact ⟨by simp [pushBytes], htl⟩
  | cons c C ih =>
    have hlt : st.buf.length < MAX_MSG_LEN := by
      simp only [List.length_cons] at h; omega
    rw [pushBytes_cons, pushByte_of_lt st c hlt]
    obtain ⟨h1, h2⟩ := ih { st with buf := st.buf ++ [c], writes := st.writes ++ [(st.buf.length, c)] } htl (by simp only [List.length_cons] at h; simp; omega)
    refine ⟨?_, h2⟩
    rw [h1]; simp

lemma pushBytes_overflow (C : List Nat) (st : ConnState)
    (hle : st.buf.length ≤ MAX_MSG_LEN) (h : MAX_MSG_LEN < st.buf.length + C.length) :
    (pushBytes st C).too_long = true := by
  induction C generalizing st with
  | nil =>
    exfalso
    simp only [List.length_nil, Nat.add_zero] at h
    omega
  | cons c C ih =>
    by_cases hlt : st.buf.length < MAX_MSG_LEN
    · rw [pushBytes_cons, pushByte_of_lt st c hlt]
      apply ih
      · simp only [List.length_append, List.length_singleton]; omega
      · simp only [List.length_append, List.length_singleton]
        simp only [List.length_cons] at h; omega
    · rw [pushBytes_cons, pushByte_of_full st c hlt]
      exact pushBytes_too_long_of C _ rfl

lemma pushByte_length_le (st : ConnState) (c : Nat) (h : st.buf.length ≤ MAX_MSG_LEN) :
    (pushByte st c).buf.length ≤ MAX_MSG_LEN := by
  unfold pushByte; split
  · simp only [List.length_append, List.length_singleton]; omega
  · exact h

lemma pushByte_writes_lt (st : ConnState) (c : Nat)
    (h2 : ∀ p ∈ st.writes, p.1 < MAX_MSG_LEN) :
    ∀ p ∈ (pushByte st c).writes, p.1 < MAX_MSG_LEN := by
  unfold pushByte; split
  · rename_i hlt
    intro p hp
    simp only [List.mem_append, List.mem_singleton] at hp
    rcases hp with hp | hp
    · exact h2 p hp
    · rw [hp]; exact hlt
  · exact h2

lemma readLoop_inv (evs : List ReadEv) (st : ConnState)
    (h1 : st.buf.length ≤ MAX_MSG_LEN)
    (h2 : ∀ p ∈ st.writes, p.1 < MAX_MSG_LEN) :
    (readLoop evs st).1.buf.length ≤ MAX_MSG_LEN
    ∧ ∀ p ∈ (readLoop evs st).1.writes, p.1 < MAX_MSG_LEN := by
  induction evs generalizing st with
  | nil => exact ⟨h1, h2⟩
  | cons ev evs ih =>
    cases ev with
    | eof => exact ⟨h1, h2⟩
    | err => exact ⟨h1, h2⟩
    | eintr => exact ih st h1 h2
    | byte c =>
      by_cases hc : isTerm c
      · simp only [readLoop, hc, if_true]
        exact ⟨h1, h2⟩
      · simp only [readLoop, hc, Bool.false_eq_true, if_false]
        exact ih (pushByte st c) (pushByte_length_le st c h1) (pushByte_writes_lt st c h2)

lemma readLoop_filter_eintr_state (evs : List ReadEv) (st : ConnState) :
    (readLoop evs st).1 = (readLoop (evs.filter fun e => !e.isEintr) st).1 := by
  induction evs generalizing st with
  | nil => rfl
  | cons ev evs ih =>
    cases ev with
    | eof => simp [readLoop, List.filter_cons, ReadEv.isEintr]
    | err => simp [readLoop, List.filter_cons, ReadEv.isEintr]
    | eintr =>
      simp only [List.filter_cons, ReadEv.isEintr, Bool.not_true, Bool.false_eq_true, if_false]
      simpa only [readLoop] using ih st
    | byte c =>
      by_cases hc : isTerm c
      · simp [readLoop, List.filter_cons, ReadEv.isEintr, hc]
      · simp only [List.filter_cons, ReadEv.isEintr, Bool.not_false, if_true, readLoop,
          hc, Bool.false_eq_true, if_false]
        exact ih (pushByte st c)

lemma readLoop_err_eq_eof (pre rest : List ReadEv) (st : ConnState) :
    (readLoop (pre ++ ReadEv.err :: rest) st).1
      = (readLoop (pre ++ ReadEv.eof :: rest) st).1 := by
  induction pre generalizing st with
  | nil => rfl
  | cons ev pre ih =>
    cases ev with
    | eof => rfl
    | err => rfl
    | eintr => simpa only [List.cons_append, readLoop] using ih st
    | byte c =>
      by_cases hc : isTerm c
      · simp [readLoop, hc]
      · simp only [List.cons_append, readLoop, hc, Bool.false_eq_true, if_false]
        exact ih (pushByte st c)

/-- C1 (amended): for every nonempty content byte sequence C of length at
most MAX_MSG_LEN containing no terminator bytes, sending C followed by a
terminator byte yields the response C followed by a single newline byte.
(The original claim also covered the empty sequence, for which the code
writes nothing; see the counterexample.) -/
theorem C1_echo_bounded (C : List Nat) (t : Nat)
    (hne : 0 < C.length) (hlen : C.length ≤ MAX_MSG_LEN)
    (_hb : allBytes C = true) (hnt : noTermBytes C = true) (ht : isTerm t = true) :
    handle (C.map ReadEv.byte ++ [ReadEv.byte t]) = C ++ [10] := by
  have hC := (noTermBytes_iff C).mp hnt
  unfold handle
  rw [readLoop_append_bytes C [ReadEv.byte t] initState hC]
  obtain ⟨hbuf, htl⟩ := pushBytes_of_le C initState rfl (by simpa [initState] using hlen)
  simp [readLoop, ht, response, htl, hbuf, hne, show initState.buf ++ C = C from rfl]

/-- C1 counterexample: the empty content sequence has length 0 ≤ 20 and no
terminator bytes, yet sending just the terminator yields the empty
response, not a single newline. -/
theorem C1_counterexample :
    handle (([] : List Nat).map ReadEv.byte ++ [ReadEv.byte 10])
      ≠ ([] : List Nat) ++ [10] := by decide

/-- Witness for C1 at C = [104, 105] and a newline terminator. -/
theorem C1_witness :
    (0 < ([104, 105] : List Nat).length
        ∧ ([104, 105] : List Nat).length ≤ MAX_MSG_LEN
        ∧ allBytes [104, 105] = true
        ∧ noTermBytes [104, 105] = true
        ∧ isTerm 10 = true)
    ∧ handle (([104, 105] : List Nat).map ReadEv.byte ++ [ReadEv.byte 10])
        = [104, 105] ++ [10] :=
  ⟨⟨by decide, by decide, by decide, by decide, by decide⟩,
    C1_echo_bounded [104, 105] 10 (by decide) (by decide) (by decide) (by decide) (by decide)⟩

/-- C2: for every content byte sequence C of length greater than
MAX_MSG_LEN containing no terminator bytes, sending C followed by a
terminator byte yields exactly the overflow sentinel "ERR too long"
with a newline; no accumulated content byte is written. -/
theorem C2_overlong_error (C : List Nat) (t : Nat)
    (hlen : MAX_MSG_LEN < C.length)
    (_hb : allBytes C = true) (hnt : noTermBytes C = true) (ht : isTerm t = true) :
    handle (C.map ReadEv.byte ++ [ReadEv.byte t]) = errMsg := by
  have hC := (noTermBytes_iff C).mp hnt
  unfold handle
  rw [readLoop_append_bytes C [ReadEv.byte t] initState hC]
  have htl : (pushBytes initState C).too_long = true :=
    pushBytes_overflow C initState (by simp [initState])
      (by simpa [initState] using hlen)
  simp [readLoop, ht, response, htl]

/-- Witness for C2 at 21 copies of byte 65 and a newline terminator. -/
theorem C2_witness :
    (MAX_MSG_LEN < (List.replicate 21 65 : List Nat).length
        ∧ allBytes (List.replicate 21 65) = true
        ∧ noTermBytes (List.replicate 21 65) = true
        ∧ isTerm 10 = true)
    ∧ handle ((List.replicate 21 65 : List Nat).map ReadEv.byte ++ [ReadEv.byte 10])
        = errMsg :=
  ⟨⟨by decide, by decide, by decide, by decide⟩,
    C2_overlong_error (List.replicate 21 65) 10 (by decide) (by decide) (by decide)
      (by decide)⟩

/-- C3 counterexample: on an input stream consisting of the single
terminator byte, the handler does not write a single newline. -/
theorem C3_counterexample : handle [ReadEv.byte 10] ≠ [10] := by decide

/-- C3 (amended): on an input stream consisting of a single terminator
byte, the handler writes nothing at all: zero bytes of response. -/
theorem C3_empty_message_silent : handle [ReadEv.byte 10] = [] := rfl

/-- C4 counterexample: after one content byte followed by a non-EINTR read
error, the handler does write a response payload, not nothing. -/
theorem C4_counterexample : handle [ReadEv.byte 65, ReadEv.err] ≠ [] := by decide

/-- C4 (amended): a read failure other than a signal interruption stops the
loop and is then handled exactly like an orderly end of stream: the final
loop state is the state accumulated so far, and the normal response
dispatch runs on it (overflow sentinel if the flag is set, accumulated
content plus newline if nonempty, nothing only when nothing was
accumulated). -/
theorem C4_read_error_like_eof (pre rest : List ReadEv) :
    (readLoop (pre ++ ReadEv.err :: rest) initState).1
      = (readLoop (pre ++ ReadEv.eof :: rest) initState).1
    ∧ handle (pre ++ ReadEv.err :: rest) = handle (pre ++ ReadEv.eof :: rest) := by
  refine ⟨readLoop_err_eq_eof pre rest initState, ?_⟩
  unfold handle
  rw [readLoop_err_eq_eof pre rest initState]

/-- Witness for C4 with one accumulated byte before the error. -/
theorem C4_witness :
    (readLoop ([ReadEv.byte 65] ++ ReadEv.err :: []) initState).1
      = (readLoop ([ReadEv.byte 65] ++ ReadEv.eof :: []) initState).1
    ∧ handle ([ReadEv.byte 65] ++ ReadEv.err :: [])
      = handle ([ReadEv.byte 65] ++ ReadEv.eof :: []) :=
  C4_read_error_like_eof [ReadEv.byte 65] []

/-- C5: for every event stream (hence at every point of the read loop,
every point being the final state of some stream), the number of stored
content bytes never exceeds MAX_MSG_LEN, and every store into the buffer
happened at an index strictly below MAX_MSG_LEN, so bytes beyond the
bound are never stored. -/
theorem C5_buffer_never_exceeds_bound (evs : List ReadEv) :
    (readLoop evs initState).1.buf.length ≤ MAX_MSG_LEN
    ∧ ((readLoop evs initState).1.writes.all
        fun p => decide (p.1 < MAX_MSG_LEN)) = true := by
  obtain ⟨h1, h2⟩ := readLoop_inv evs initState (by simp [initState]) (by simp [initState])
  refine ⟨h1, ?_⟩
  rw [List.all_eq_true]
  intro p hp
  simpa using h2 p hp

/-- Witness for C5 on a 30-byte overlong stream. -/
theorem C5_witness :
    (readLoop (List.replicate 30 (ReadEv.byte 65)) initState).1.buf.length ≤ MAX_MSG_LEN
    ∧ ((readLoop (List.replicate 30 (ReadEv.byte 65)) initState).1.writes.all
        fun p => decide (p.1 < MAX_MSG_LEN)) = true :=
  C5_buffer_never_exceeds_bound (List.replicate 30 (ReadEv.byte 65))

/-- C6 (amended): for every content byte sequence C with no terminator
bytes, the handler behaves identically on "C then end of stream" and on
"C then a terminator byte": the loop results are literally equal, and
the common response is the overflow sentinel when C is longer than
MAX_MSG_LEN, nothing when C is empty, and C followed by a newline
otherwise. (The original claim asserted the echo-plus-newline response
for every length ≤ MAX_MSG_LEN, which fails for the empty sequence; see
the counterexample.) -/
theorem C6_eof_equals_terminator (C : List Nat) (t : Nat)
    (_hb : allBytes C = true) (hnt : noTermBytes C = true) (ht : isTerm t = true) :
    readLoop (C.map ReadEv.byte ++ [ReadEv.eof]) initState
      = readLoop (C.map ReadEv.byte ++ [ReadEv.byte t]) initState
    ∧ handle (C.map ReadEv.byte ++ [ReadEv.eof])
      = (if MAX_MSG_LEN < C.length then errMsg
          else if C.length = 0 then [] else C ++ [10]) := by
  have hC := (noTermBytes_iff C).mp hnt
  have h1 : readLoop (C.map ReadEv.byte ++ [ReadEv.eof]) initState
      = (pushBytes initState C, []) := by
    rw [readLoop_append_bytes C [ReadEv.eof] initState hC]
    simp [readLoop]
  have h2 : readLoop (C.map ReadEv.byte ++ [ReadEv.byte t]) initState
      = (pushBytes initState C, []) := by
    rw [readLoop_append_bytes C [ReadEv.byte t] initState hC]
    simp [readLoop, ht]
  refine ⟨h1.trans h2.symm, ?_⟩
  unfold handle
  rw [h1]
  by_cases hover : MAX_MSG_LEN < C.length
  · have htl := pushBytes_overflow C initState (by simp [initState])
      (by simpa [initState] using hover)
    simp [response, htl, hover]
  · obtain ⟨hbuf, htl⟩ := pushBytes_of_le C initState rfl (by simp [initState]; omega)
    by_cases hz : C.length = 0
    · have hnil : C = [] := List.length_eq_zero.mp hz
      subst hnil
      rfl
    · have hpos : 0 < C.length := Nat.pos_of_ne_zero hz
      simp [response, htl, hbuf, hover, hz, hpos, show initState.buf ++ C = C from rfl]

/-- C6 counterexample: for the empty content sequence, both input streams
produce the empty response, not the newline that the claimed echo
behaviour for lengths ≤ 20 would require. -/
theorem C6_counterexample :
    handle (([] : List Nat).map ReadEv.byte ++ [ReadEv.eof]) ≠ ([] : List Nat) ++ [10]
    ∧ handle (([] : List Nat).map ReadEv.byte ++ [ReadEv.byte 10])
        ≠ ([] : List Nat) ++ [10] :=
  ⟨by decide, by decide⟩

/-- Witness for C6 at C = [65] and a carriage-return terminator. -/
theorem C6_witness :
    (allBytes [65] = true ∧ noTermBytes [65] = true ∧ isTerm 13 = true)
    ∧ (readLoop (([65] : List Nat).map ReadEv.byte ++ [ReadEv.eof]) initState
        = readLoop (([65] : List Nat).map ReadEv.byte ++ [ReadEv.byte 13]) initState
      ∧ handle (([65] : List Nat).map ReadEv.byte ++ [ReadEv.eof])
        = (if MAX_MSG_LEN < ([65] : List Nat).length then errMsg
            else if ([65] : List Nat).length = 0 then [] else [65] ++ [10])) :=
  ⟨⟨by decide, by decide, by decide⟩,
    C6_eof_equals_terminator [65] 13 (by decide) (by decide) (by decide)⟩

/-- C7: the read loop consumes exactly the events up to and including the
first terminator byte, or up to and including the end-of-stream event when
no terminator occurs, leaving every later event unconsumed — for content
of arbitrary length, so overflow does not stop the draining early. -/
theorem C7_drains_through_terminator (C : List Nat) (t : Nat) (rest : List ReadEv)
    (_hb : allBytes C = true) (hnt : noTermBytes C = true) (ht : isTerm t = true) :
    (readLoop (C.map ReadEv.byte ++ ReadEv.byte t :: rest) initState).2 = rest
    ∧ (readLoop (C.map ReadEv.byte ++ ReadEv.eof :: rest) initState).2 = rest := by
  have hC := (noTermBytes_iff C).mp hnt
  constructor
  · rw [readLoop_append_bytes C (ReadEv.byte t :: rest) initState hC]
    simp [readLoop, ht]
  · rw [readLoop_append_bytes C (ReadEv.eof :: rest) initState hC]
    simp [readLoop]

/-- Witness for C7 on a 25-byte overlong content run, with a trailing
unconsumed event after the terminator. -/
theorem C7_witness :
    (allBytes (List.replicate 25 65) = true
        ∧ noTermBytes (List.replicate 25 65) = true
        ∧ isTerm 10 = true)
    ∧ ((readLoop ((List.replicate 25 65 : List Nat).map ReadEv.byte
          ++ ReadEv.byte 10 :: [ReadEv.byte 66]) initState).2 = [ReadEv.byte 66]
      ∧ (readLoop ((List.replicate 25 65 : List Nat).map ReadEv.byte
          ++ ReadEv.eof :: [ReadEv.byte 66]) initState).2 = [ReadEv.byte 66]) :=
  ⟨⟨by decide, by decide, by decide⟩,
    C7_drains_through_terminator (List.replicate 25 65) 10 [ReadEv.byte 66]
      (by decide) (by decide) (by decide)⟩

/-- C8: a connection that reaches end of stream before delivering any byte
gets no response at all, and the loop state is untouched. -/
theorem C8_immediate_eof_silent :
    handle [ReadEv.eof] = [] ∧ (readLoop [ReadEv.eof] initState).1 = initState :=
  ⟨rfl, rfl⟩

/-- C9: an EINTR result retries the read with the state unchanged:
prefixing the stream with an EINTR event leaves the whole computation
unchanged, and the final state of any stream equals the final state of the
stream with all EINTR events removed. -/
theorem C9_eintr_retries_unchanged (evs : List ReadEv) (st : ConnState) :
    readLoop (ReadEv.eintr :: evs) st = readLoop evs st
    ∧ (readLoop evs st).1 = (readLoop (evs.filter fun e => !e.isEintr) st).1 :=
  ⟨rfl, readLoop_filter_eintr_state evs st⟩

/-- Witness for C9 on a stream with an interleaved EINTR event. -/
theorem C9_witness :
    readLoop (ReadEv.eintr :: [ReadEv.byte 65, ReadEv.eintr, ReadEv.eof]) initState
      = readLoop [ReadEv.byte 65, ReadEv.eintr, ReadEv.eof] initState
    ∧ (readLoop [ReadEv.byte 65, ReadEv.eintr, ReadEv.eof] initState).1
      = (readLoop ([ReadEv.byte 65, ReadEv.eintr, ReadEv.eof].filter
          fun e => !e.isEintr) initState).1 :=
  C9_eintr_retries_unchanged [ReadEv.byte 65, ReadEv.eintr, ReadEv.eof] initState

/-- C10: every store into the fixed 21-byte array is in bounds for every
event stream: content stores happen only at indices strictly below
MAX_MSG_LEN, the final NUL store happens at index `total`, which never
exceeds MAX_MSG_LEN, and hence every write lands strictly below the array
size MAX_MSG_LEN + 1. -/
theorem C10_stores_in_bounds (evs : List ReadEv) :
    ((readLoop evs initState).1.writes.all fun p => decide (p.1 < MAX_MSG_LEN)) = true
    ∧ (readLoop evs initState).1.buf.length ≤ MAX_MSG_LEN
    ∧ ((bufWrites evs).all fun p => decide (p.1 < MAX_MSG_LEN + 1)) = true := by
  obtain ⟨h1, h2⟩ := readLoop_inv evs initState (by simp [initState]) (by simp [initState])
  refine ⟨?_, h1, ?_⟩
  · rw [List.all_eq_true]
    intro p hp
    simpa using h2 p hp
  · rw [List.all_eq_true]
    intro p hp
    simp only [bufWrites, List.mem_append, List.mem_singleton] at hp
    rcases hp with hp | hp
    · have := h2 p hp
      simp only [decide_eq_true_eq]
      omega
    · rw [hp]
      simp only [decide_eq_true_eq]
      omega

/-- Witness for C10 on a short echoed stream. -/
theorem C10_witness :
    ((readLoop [ReadEv.byte 65, ReadEv.byte 10] initState).1.writes.all
        fun p => decide (p.1 < MAX_MSG_LEN)) = true
    ∧ (readLoop [ReadEv.byte 65, ReadEv.byte 10] initState).1.buf.length ≤ MAX_MSG_LEN
    ∧ ((bufWrites [ReadEv.byte 65, ReadEv.byte 10]).all
        fun p => decide (p.1 < MAX_MSG_LEN + 1)) = true :=
  C10_stores_in_bounds [ReadEv.byte 65, ReadEv.byte 10]
